import Mathlib

/-!
Verification of the wgpu command-execution engine of this repository:
the command model (render/src/commands.rs), the blend chunker, the mask
state machine, the recursive blend compositor (render/wgpu/src/commands.rs),
and the pipeline/resource caches (render/wgpu/src/descriptors.rs,
render/wgpu/src/pipelines.rs).

Machine integers: `num_masks` is a Rust `u32`; it is modelled as a `Nat`
with explicit wrapping modulo `2 ^ 32` where the source performs `+= 1` /
`-= 1` (release builds wrap, debug builds assert). Floating-point payloads
(matrix entries, color transforms) are not examined by any claim; they are
carried as `Int` fields so that commands remain plain data moved through
the chunker and recorder unchanged.
-/

set_option maxRecDepth 8192

namespace Ruffle

/-- Matrix from ruffle_render::matrix, payload carried opaquely
(f32 entries abstracted to Int; no claim inspects them). -/
structure Matrix where
  a : Int
  b : Int
  c : Int
  d : Int
  tx : Int
  ty : Int
deriving DecidableEq

/-- ColorTransform payload of a Transform (f32 fields abstracted to Int). -/
structure ColorTransform where
  mult_r : Int
  mult_g : Int
  mult_b : Int
  mult_a : Int
  add_r : Int
  add_g : Int
  add_b : Int
  add_a : Int
deriving DecidableEq

/-- Transform from ruffle_render::transform: a 2-D matrix plus a color transform. -/
structure Transform where
  matrix : Matrix
  color_transform : ColorTransform
deriving DecidableEq

/-- Color from swf: rgba bytes. -/
structure Color where
  r : Nat
  g : Nat
  b : Nat
  a : Nat
deriving DecidableEq

/-- BitmapHandle from ruffle_render::bitmap: a newtype over an index. -/
structure BitmapHandle where
  val : Nat
deriving DecidableEq

/-- ShapeHandle from ruffle_render::backend: a newtype over an index. -/
structure ShapeHandle where
  val : Nat
deriving DecidableEq

/-- BlendMode from swf: the closed enumeration of blend modes. -/
inductive BlendMode
  | Normal
  | Layer
  | Multiply
  | Screen
  | Lighten
  | Darken
  | Difference
  | Add
  | Subtract
  | Invert
  | Alpha
  | Erase
  | Overlay
  | HardLight
deriving DecidableEq

/-- Command from render/src/commands.rs: the tagged drawing-command variant.
A Blend command owns a nested command list. -/
inductive Command
  | RenderBitmap (bitmap : BitmapHandle) (transform : Transform) (smoothing : Bool)
  | RenderShape (shape : ShapeHandle) (transform : Transform)
  | DrawRect (color : Color) (matrix : Matrix)
  | PushMask
  | ActivateMask
  | DeactivateMask
  | PopMask
  | Blend (commands : List Command) (blend_mode : BlendMode)

/-- Chunk from render/wgpu/src/commands.rs: either a run of plain draw
commands or a single blend group. -/
inductive Chunk
  | Draw (commands : List Command)
  | Blend (commands : List Command) (blend_mode : BlendMode)

/-- Loop body of chunk_blends: `current` is the pending run of non-Blend
commands accumulated so far (in order), the second argument is the rest of
the input. A Blend command flushes the pending run (if non-empty) as a Draw
chunk, then is emitted as its own Blend chunk; at the end the trailing run
is flushed. -/
def chunk_blends_go (current : List Command) : List Command → List Chunk
  | [] => if current.isEmpty then [] else [Chunk.Draw current]
  | c :: rest =>
    match c with
    | Command.Blend commands blend_mode =>
        (if current.isEmpty then [] else [Chunk.Draw current])
          ++ Chunk.Blend commands blend_mode :: chunk_blends_go [] rest
    | _ => chunk_blends_go (current ++ [c]) rest

/-- chunk_blends from render/wgpu/src/commands.rs: chunk the commands such
that every Blend is separated out. -/
def chunk_blends (commands : List Command) : List Chunk :=
  chunk_blends_go [] commands

/-- Command sequence carried by a chunk: a Draw chunk carries its run, a
Blend chunk stands for the single Blend command it was made from. -/
def chunkContents : Chunk → List Command
  | Chunk.Draw commands => commands
  | Chunk.Blend commands blend_mode => [Command.Blend commands blend_mode]

/-- Whether a command is a Blend command. -/
def isBlendCmd : Command → Bool
  | Command.Blend _ _ => true
  | _ => false

theorem chunk_blends_go_join (rest : List Command) :
    ∀ current : List Command,
      ((chunk_blends_go current rest).map chunkContents).flatten = current ++ rest := by
  induction rest with
  | nil =>
    intro current
    cases current with
    | nil => simp [chunk_blends_go]
    | cons c cs => simp [chunk_blends_go, chunkContents]
  | cons c rest ih =>
    intro current
    cases c with
    | Blend commands blend_mode =>
      cases current with
      | nil => simp [chunk_blends_go, chunkContents, ih]
      | cons d ds => simp [chunk_blends_go, chunkContents, ih]
    | RenderBitmap b t s => simpa [chunk_blends_go] using ih (current ++ [Command.RenderBitmap b t s])
    | RenderShape sh t => simpa [chunk_blends_go] using ih (current ++ [Command.RenderShape sh t])
    | DrawRect col m => simpa [chunk_blends_go] using ih (current ++ [Command.DrawRect col m])
    | PushMask => simpa [chunk_blends_go] using ih (current ++ [Command.PushMask])
    | ActivateMask => simpa [chunk_blends_go] using ih (current ++ [Command.ActivateMask])
    | DeactivateMask => simpa [chunk_blends_go] using ih (current ++ [Command.DeactivateMask])
    | PopMask => simpa [chunk_blends_go] using ih (current ++ [Command.PopMask])

theorem chunk_blends_go_draw_ok (rest : List Command) :
    ∀ current : List Command, (∀ c ∈ current, isBlendCmd c = false) →
      ∀ ch ∈ chunk_blends_go current rest, ∀ cmds, ch = Chunk.Draw cmds →
        cmds ≠ [] ∧ ∀ c ∈ cmds, isBlendCmd c = false := by
  induction rest with
  | nil =>
    intro current hcur ch hch cmds hcmds
    cases current with
    | nil => simp [chunk_blends_go] at hch
    | cons d ds =>
      simp [chunk_blends_go] at hch
      subst hch
      cases hcmds
      exact ⟨by simp, hcur⟩
  | cons c rest ih =>
    intro current hcur ch hch cmds hcmds
    cases c with
    | Blend commands blend_mode =>
      cases current with
      | nil =>
        simp [chunk_blends_go] at hch
        rcases hch with hch | hch
        · subst hch; cases hcmds
        · exact ih [] (by simp) ch hch cmds hcmds
      | cons d ds =>
        simp [chunk_blends_go] at hch
        rcases hch with hch | hch | hch
        · subst hch
          cases hcmds
          exact ⟨by simp, hcur⟩
        · subst hch; cases hcmds
        · exact ih [] (by simp) ch hch cmds hcmds
    | RenderBitmap b t s =>
      refine ih (current ++ [Command.RenderBitmap b t s]) ?_ ch (by simpa [chunk_blends_go] using hch) cmds hcmds
      intro x hx
      rcases List.mem_append.mp hx with hx | hx
      · exact hcur x hx
      · simp at hx; subst hx; rfl
    | RenderShape sh t =>
      refine ih (current ++ [Command.RenderShape sh t]) ?_ ch (by simpa [chunk_blends_go] using hch) cmds hcmds
      intro x hx
      rcases List.mem_append.mp hx with hx | hx
      · exact hcur x hx
      · simp at hx; subst hx; rfl
    | DrawRect col m =>
      refine ih (current ++ [Command.DrawRect col m]) ?_ ch (by simpa [chunk_blends_go] using hch) cmds hcmds
      intro x hx
      rcases List.mem_append.mp hx with hx | hx
      · exact hcur x hx
      · simp at hx; subst hx; rfl
    | PushMask =>
      refine ih (current ++ [Command.PushMask]) ?_ ch (by simpa [chunk_blends_go] using hch) cmds hcmds
      intro x hx
      rcases List.mem_append.mp hx with hx | hx
      · exact hcur x hx
      · simp at hx; subst hx; rfl
    | ActivateMask =>
      refine ih (current ++ [Command.ActivateMask]) ?_ ch (by simpa [chunk_blends_go] using hch) cmds hcmds
      intro x hx
      rcases List.mem_append.mp hx with hx | hx
      · exact hcur x hx
      · simp at hx; subst hx; rfl
    | DeactivateMask =>
      refine ih (current ++ [Command.DeactivateMask]) ?_ ch (by simpa [chunk_blends_go] using hch) cmds hcmds
      intro x hx
      rcases List.mem_append.mp hx with hx | hx
      · exact hcur x hx
      · simp at hx; subst hx; rfl
    | PopMask =>
      refine ih (current ++ [Command.PopMask]) ?_ ch (by simpa [chunk_blends_go] using hch) cmds hcmds
      intro x hx
      rcases List.mem_append.mp hx with hx | hx
      · exact hcur x hx
      · simp at hx; subst hx; rfl

/-- Claim C2: for every input command vector, chunk_blends returns a chunk
sequence such that concatenating the chunks' commands in order reproduces
the input exactly, every Blend command becomes its own singleton Blend
chunk, and no Draw chunk contains a Blend command or is empty. -/
theorem chunk_blends_order_preserving_blend_isolating (l : List Command) :
    ((chunk_blends l).map chunkContents).flatten = l
    ∧ (∀ ch ∈ chunk_blends l, ∀ commands blend_mode,
        ch = Chunk.Blend commands blend_mode →
        chunkContents ch = [Command.Blend commands blend_mode])
    ∧ (∀ ch ∈ chunk_blends l, ∀ cmds, ch = Chunk.Draw cmds →
        cmds ≠ [] ∧ ∀ c ∈ cmds, isBlendCmd c = false) := by
  refine ⟨by simpa [chunk_blends] using chunk_blends_go_join l [], ?_, ?_⟩
  · intro ch _ commands blend_mode hch
    subst hch
    rfl
  · intro ch hch cmds hcmds
    exact chunk_blends_go_draw_ok l [] (by simp) ch hch cmds hcmds

/-- Loop of CommandList::execute (render/src/commands.rs) specialised to the
recording handler (impl CommandHandler for CommandList): each dispatched
operation pushes the corresponding command onto the recording list `acc`. -/
def executeRecord : List Command → List Command → List Command
  | [], acc => acc
  | Command.RenderBitmap bitmap transform smoothing :: rest, acc =>
      executeRecord rest (acc ++ [Command.RenderBitmap bitmap transform smoothing])
  | Command.RenderShape shape transform :: rest, acc =>
      executeRecord rest (acc ++ [Command.RenderShape shape transform])
  | Command.DrawRect color matrix :: rest, acc =>
      executeRecord rest (acc ++ [Command.DrawRect color matrix])
  | Command.PushMask :: rest, acc => executeRecord rest (acc ++ [Command.PushMask])
  | Command.ActivateMask :: rest, acc => executeRecord rest (acc ++ [Command.ActivateMask])
  | Command.DeactivateMask :: rest, acc => executeRecord rest (acc ++ [Command.DeactivateMask])
  | Command.PopMask :: rest, acc => executeRecord rest (acc ++ [Command.PopMask])
  | Command.Blend commands blend_mode :: rest, acc =>
      executeRecord rest (acc ++ [Command.Blend commands blend_mode])

theorem executeRecord_append (cmds : List Command) :
    ∀ acc : List Command, executeRecord cmds acc = acc ++ cmds := by
  induction cmds with
  | nil => intro acc; simp [executeRecord]
  | cons c rest ih =>
    intro acc
    cases c <;> simp [executeRecord, ih]

/-- Claim C9: executing any CommandList against a fresh empty CommandList
used as the recording handler appends exactly the original commands in their
original order (recording is a left inverse of execute). -/
theorem execute_record_roundtrip (cmds : List Command) :
    executeRecord cmds [] = cmds := by
  simpa using executeRecord_append cmds []

/-- MaskState from render/wgpu/src: the four-state mode of the mask machine. -/
inductive MaskState
  | NoMask
  | DrawMaskStencil
  | DrawMaskedContent
  | ClearMaskStencil
deriving DecidableEq

/-- Modulus of the Rust u32 arithmetic used for num_masks. -/
def U32_MOD : Nat := 4294967296

/-- Wrapping u32 increment, the release-build semantics of num_masks += 1. -/
def wrap_add1 (n : Nat) : Nat := (n + 1) % U32_MOD

/-- Wrapping u32 decrement, the release-build semantics of num_masks -= 1. -/
def wrap_sub1 (n : Nat) : Nat := (n + (U32_MOD - 1)) % U32_MOD

/-- Mask-machine portion of CommandRenderer state: the nesting counter and
the current mask state (commands.rs fields num_masks / mask_state). -/
structure MaskSt where
  num_masks : Nat
  mask_state : MaskState
deriving DecidableEq

/-- push_mask from render/wgpu/src/commands.rs: increment num_masks, enter
DrawMaskStencil, and set the stencil reference to num_masks - 1 (the second
component records the reference passed to set_stencil_reference). -/
def push_mask (s : MaskSt) : MaskSt × Nat :=
  let n := wrap_add1 s.num_masks
  (⟨n, MaskState.DrawMaskStencil⟩, wrap_sub1 n)

/-- activate_mask from render/wgpu/src/commands.rs: enter DrawMaskedContent
and set the stencil reference to num_masks. -/
def activate_mask (s : MaskSt) : MaskSt × Nat :=
  (⟨s.num_masks, MaskState.DrawMaskedContent⟩, s.num_masks)

/-- deactivate_mask from render/wgpu/src/commands.rs: enter ClearMaskStencil
and set the stencil reference to num_masks. -/
def deactivate_mask (s : MaskSt) : MaskSt × Nat :=
  (⟨s.num_masks, MaskState.ClearMaskStencil⟩, s.num_masks)

/-- pop_mask from render/wgpu/src/commands.rs: decrement num_masks, set the
stencil reference to the decremented counter, and move to NoMask when the
counter reached 0, else to DrawMaskedContent. -/
def pop_mask (s : MaskSt) : MaskSt × Nat :=
  let n := wrap_sub1 s.num_masks
  (⟨n, if n = 0 then MaskState.NoMask else MaskState.DrawMaskedContent⟩, n)

theorem wrap_add1_eq (n : Nat) (h : n + 1 < U32_MOD) : wrap_add1 n = n + 1 := by
  simp only [wrap_add1, U32_MOD] at *
  omega

theorem wrap_sub1_eq (n : Nat) (h0 : 0 < n) (h : n < U32_MOD) : wrap_sub1 n = n - 1 := by
  simp only [wrap_sub1, U32_MOD] at *
  omega

theorem wrap_sub1_wrap_add1 (n : Nat) (h : n < U32_MOD) : wrap_sub1 (wrap_add1 n) = n := by
  simp only [wrap_add1, wrap_sub1, U32_MOD] at *
  omega

/-- Claim C3: the mask handlers implement exactly the transition table of
spec section 4.3. PushMask (from NoMask or DrawMaskedContent) moves to
DrawMaskStencil and increments the counter by 1; ActivateMask (from
DrawMaskStencil, counter positive) moves to DrawMaskedContent with the
counter unchanged; DeactivateMask (from DrawMaskedContent, counter positive)
moves to ClearMaskStencil with the counter unchanged; PopMask (from
ClearMaskStencil, counter positive) decrements the counter and moves to
DrawMaskedContent if the decremented counter is positive, else to NoMask.
Counters stay in u32 range so no wrap occurs under these preconditions. -/
theorem mask_handlers_transition_table (s : MaskSt) (hs : s.num_masks < U32_MOD) :
    ((s.mask_state = MaskState.NoMask ∨ s.mask_state = MaskState.DrawMaskedContent) →
      s.num_masks + 1 < U32_MOD →
      (push_mask s).1 = ⟨s.num_masks + 1, MaskState.DrawMaskStencil⟩)
    ∧ (s.mask_state = MaskState.DrawMaskStencil → 0 < s.num_masks →
      (activate_mask s).1 = ⟨s.num_masks, MaskState.DrawMaskedContent⟩)
    ∧ (s.mask_state = MaskState.DrawMaskedContent → 0 < s.num_masks →
      (deactivate_mask s).1 = ⟨s.num_masks, MaskState.ClearMaskStencil⟩)
    ∧ (s.mask_state = MaskState.ClearMaskStencil → 0 < s.num_masks →
      (pop_mask s).1 = ⟨s.num_masks - 1,
        if s.num_masks - 1 = 0 then MaskState.NoMask
        else MaskState.DrawMaskedContent⟩) := by
  refine ⟨fun _ h1 => ?_, fun _ h2 => ?_, fun _ h3 => ?_, fun _ h4 => ?_⟩
  · have ha : wrap_add1 s.num_masks = s.num_masks + 1 := wrap_add1_eq _ h1
    have hb : wrap_sub1 (wrap_add1 s.num_masks) = s.num_masks := wrap_sub1_wrap_add1 _ hs
    simp [push_mask, ha, hb]
  · rfl
  · rfl
  · have ha : wrap_sub1 s.num_masks = s.num_masks - 1 := wrap_sub1_eq _ h4 hs
    simp only [pop_mask, ha]

/-- Witness for C3 at the concrete state counter 2, ClearMaskStencil. -/
theorem mask_handlers_transition_table_witness :
    (2 : Nat) < U32_MOD
    ∧ (((MaskSt.mk 2 MaskState.ClearMaskStencil).mask_state = MaskState.NoMask ∨
        (MaskSt.mk 2 MaskState.ClearMaskStencil).mask_state = MaskState.DrawMaskedContent) →
      (MaskSt.mk 2 MaskState.ClearMaskStencil).num_masks + 1 < U32_MOD →
      (push_mask (MaskSt.mk 2 MaskState.ClearMaskStencil)).1 = ⟨3, MaskState.DrawMaskStencil⟩)
    ∧ ((MaskSt.mk 2 MaskState.ClearMaskStencil).mask_state = MaskState.DrawMaskStencil →
      0 < (MaskSt.mk 2 MaskState.ClearMaskStencil).num_masks →
      (activate_mask (MaskSt.mk 2 MaskState.ClearMaskStencil)).1 = ⟨2, MaskState.DrawMaskedContent⟩)
    ∧ ((MaskSt.mk 2 MaskState.ClearMaskStencil).mask_state = MaskState.DrawMaskedContent →
      0 < (MaskSt.mk 2 MaskState.ClearMaskStencil).num_masks →
      (deactivate_mask (MaskSt.mk 2 MaskState.ClearMaskStencil)).1 = ⟨2, MaskState.ClearMaskStencil⟩)
    ∧ ((MaskSt.mk 2 MaskState.ClearMaskStencil).mask_state = MaskState.ClearMaskStencil →
      0 < (MaskSt.mk 2 MaskState.ClearMaskStencil).num_masks →
      (pop_mask (MaskSt.mk 2 MaskState.ClearMaskStencil)).1 = ⟨1,
        if (2 : Nat) - 1 = 0 then MaskState.NoMask else MaskState.DrawMaskedContent⟩) := by
  have h := mask_handlers_transition_table ⟨2, MaskState.ClearMaskStencil⟩ (by decide)
  exact ⟨by decide, h.1, h.2.1, h.2.2.1, h.2.2.2⟩

/-- StencilOperation variants used by create_shape_pipeline (wgpu). -/
inductive StencilOperation
  | Keep
  | IncrementClamp
  | DecrementClamp
deriving DecidableEq

/-- CompareFunction variants used by create_shape_pipeline (wgpu). -/
inductive CompareFunction
  | Always
  | Equal
deriving DecidableEq

/-- StencilFaceState from wgpu, as configured by create_shape_pipeline. -/
structure StencilFaceState where
  compare : CompareFunction
  fail_op : StencilOperation
  depth_fail_op : StencilOperation
  pass_op : StencilOperation
deriving DecidableEq

/-- Stencil face state and color-write flag chosen per MaskState by
create_shape_pipeline in render/wgpu/src/pipelines.rs (the Bool is true when
ColorWrites::ALL is used, false for ColorWrites::empty()). -/
def shape_pipeline_stencil_state : MaskState → StencilFaceState × Bool
  | MaskState.NoMask =>
      (⟨CompareFunction.Always, StencilOperation.Keep, StencilOperation.Keep,
        StencilOperation.Keep⟩, true)
  | MaskState.DrawMaskStencil =>
      (⟨CompareFunction.Equal, StencilOperation.Keep, StencilOperation.Keep,
        StencilOperation.IncrementClamp⟩, false)
  | MaskState.DrawMaskedContent =>
      (⟨CompareFunction.Equal, StencilOperation.Keep, StencilOperation.Keep,
        StencilOperation.Keep⟩, true)
  | MaskState.ClearMaskStencil =>
      (⟨CompareFunction.Equal, StencilOperation.Keep, StencilOperation.Keep,
        StencilOperation.DecrementClamp⟩, false)

/-- Counterexample to claim C4 as stated: executing PopMask with the counter
already 0 does not leave the counter at 0 — the u32 counter wraps. -/
theorem pop_mask_at_zero_counterexample :
    (pop_mask ⟨0, MaskState.ClearMaskStencil⟩).1.num_masks ≠ 0 := by
  decide

/-- Claim C4 (amended): the saturating increment/decrement lives in the GPU
stencil operations (DrawMaskStencil draws use IncrementClamp, ClearMaskStencil
draws use DecrementClamp), while the CPU mask counter is plain u32 arithmetic:
executing PopMask when the counter is already 0 wraps the counter to
2^32 - 1 in a release build (the precondition is only a debug assertion), and
the release build does not crash — pop_mask is total and its wrapping
decrement never panics. -/
theorem pop_mask_wraps_and_stencil_clamps :
    (pop_mask ⟨0, MaskState.ClearMaskStencil⟩).1.num_masks = U32_MOD - 1
    ∧ (shape_pipeline_stencil_state MaskState.DrawMaskStencil).1.pass_op
        = StencilOperation.IncrementClamp
    ∧ (shape_pipeline_stencil_state MaskState.ClearMaskStencil).1.pass_op
        = StencilOperation.DecrementClamp
    ∧ ∀ s : MaskSt, s.num_masks < U32_MOD → (pop_mask s).1.num_masks < U32_MOD := by
  refine ⟨by decide, rfl, rfl, ?_⟩
  intro s _
  simp only [pop_mask, wrap_sub1, U32_MOD]
  omega

/-- Whether a command is one of the four mask commands. -/
def isMaskCmd : Command → Bool
  | Command.PushMask => true
  | Command.ActivateMask => true
  | Command.DeactivateMask => true
  | Command.PopMask => true
  | _ => false

/-- Effect of one command on the mask-machine state, as dispatched by
CommandRenderer::execute: the four mask commands call their handlers, all
other commands leave num_masks and mask_state untouched (a Blend chunk also
leaves the enclosing state unchanged; its nested list runs on fresh state). -/
def maskStep (c : Command) (s : MaskSt) : MaskSt :=
  match c with
  | Command.PushMask => (push_mask s).1
  | Command.ActivateMask => (activate_mask s).1
  | Command.DeactivateMask => (deactivate_mask s).1
  | Command.PopMask => (pop_mask s).1
  | _ => s

/-- Mask-machine state after executing a command stream in order. -/
def maskRun (l : List Command) (s : MaskSt) : MaskSt :=
  l.foldl (fun s c => maskStep c s) s

/-- Well-formed command streams: mask commands are nested in matching
Push / Activate / Deactivate / Pop groups, with arbitrary non-mask draw
commands before a group, between Push and Activate (drawing the mask
stencil), and between Deactivate and Pop (clearing it), and a further
well-formed stream as the masked content and as the continuation. -/
inductive WFStream : List Command → Prop
  | nil : WFStream []
  | draw {c : Command} {rest : List Command} :
      isMaskCmd c = false → WFStream rest → WFStream (c :: rest)
  | group {stencil clear inner rest : List Command} :
      (∀ c ∈ stencil, isMaskCmd c = false) →
      (∀ c ∈ clear, isMaskCmd c = false) →
      WFStream inner → WFStream rest →
      WFStream (Command.PushMask :: stencil ++ Command.ActivateMask :: inner
        ++ Command.DeactivateMask :: clear ++ Command.PopMask :: rest)

/-- Whether a stream contains at least one mask command. -/
def hasMaskCmd (l : List Command) : Bool :=
  l.any isMaskCmd

theorem maskRun_cons (c : Command) (l : List Command) (s : MaskSt) :
    maskRun (c :: l) s = maskRun l (maskStep c s) := rfl

theorem maskRun_append (l1 l2 : List Command) (s : MaskSt) :
    maskRun (l1 ++ l2) s = maskRun l2 (maskRun l1 s) := by
  simp [maskRun, List.foldl_append]

theorem maskRun_non_mask (l : List Command) :
    ∀ s : MaskSt, (∀ c ∈ l, isMaskCmd c = false) → maskRun l s = s := by
  induction l with
  | nil => intro s _; rfl
  | cons c rest ih =>
    intro s h
    have hc : isMaskCmd c = false := h c (by simp)
    have hstep : maskStep c s = s := by
      cases c <;> simp [isMaskCmd] at hc <;> rfl
    simp only [maskRun, List.foldl_cons] at *
    rw [hstep]
    exact ih s fun d hd => h d (by simp [hd])

theorem hasMaskCmd_non_mask (l : List Command) (h : ∀ c ∈ l, isMaskCmd c = false) :
    hasMaskCmd l = false := by
  simp only [hasMaskCmd, List.any_eq_false]
  exact fun c hc => by simp [h c hc]

theorem maskRun_wf (l : List Command) (hwf : WFStream l) :
    ∀ s : MaskSt, s.num_masks < U32_MOD →
      maskRun l s =
        if hasMaskCmd l then
          ⟨s.num_masks,
            if s.num_masks = 0 then MaskState.NoMask else MaskState.DrawMaskedContent⟩
        else s := by
  induction hwf with
  | nil => intro s _; simp [maskRun, hasMaskCmd]
  | @draw c rest hc _ ih =>
    intro s hs
    have hstep : maskStep c s = s := by
      cases c <;> simp [isMaskCmd] at hc <;> rfl
    have : maskRun (c :: rest) s = maskRun rest s := by
      simp only [maskRun, List.foldl_cons, hstep]
    rw [this, ih s hs]
    have hh : hasMaskCmd (c :: rest) = hasMaskCmd rest := by
      simp [hasMaskCmd, hc]
    rw [hh]
  | @group stencil clear inner rest hst hcl _ _ ihInner ihRest =>
    intro s hs
    have hn1lt : wrap_add1 s.num_masks < U32_MOD := by
      simp only [wrap_add1, U32_MOD]
      omega
    have hrun : maskRun (Command.PushMask :: stencil ++ Command.ActivateMask :: inner
        ++ Command.DeactivateMask :: clear ++ Command.PopMask :: rest) s
        = maskRun rest ((pop_mask ⟨(maskRun inner
            ⟨wrap_add1 s.num_masks, MaskState.DrawMaskedContent⟩).num_masks,
            MaskState.ClearMaskStencil⟩).1) := by
      rw [maskRun_append, maskRun_append, maskRun_append, maskRun_cons, maskRun_cons,
        maskRun_cons, maskRun_cons]
      have e1 : maskStep Command.PushMask s
          = ⟨wrap_add1 s.num_masks, MaskState.DrawMaskStencil⟩ := rfl
      rw [e1, maskRun_non_mask stencil _ hst]
      have e3 : maskStep Command.ActivateMask ⟨wrap_add1 s.num_masks, MaskState.DrawMaskStencil⟩
          = ⟨wrap_add1 s.num_masks, MaskState.DrawMaskedContent⟩ := rfl
      rw [e3]
      have e5 : maskStep Command.DeactivateMask
            (maskRun inner ⟨wrap_add1 s.num_masks, MaskState.DrawMaskedContent⟩)
          = ⟨(maskRun inner ⟨wrap_add1 s.num_masks, MaskState.DrawMaskedContent⟩).num_masks,
             MaskState.ClearMaskStencil⟩ := rfl
      rw [e5, maskRun_non_mask clear _ hcl]
      rfl
    have hinner := ihInner ⟨wrap_add1 s.num_masks, MaskState.DrawMaskedContent⟩ hn1lt
    have hinnerNum : (maskRun inner
        ⟨wrap_add1 s.num_masks, MaskState.DrawMaskedContent⟩).num_masks
        = wrap_add1 s.num_masks := by
      rw [hinner]
      cases hasMaskCmd inner <;> simp
    rw [hrun, hinnerNum]
    have hpop : (pop_mask ⟨wrap_add1 s.num_masks, MaskState.ClearMaskStencil⟩).1
        = ⟨s.num_masks,
            if s.num_masks = 0 then MaskState.NoMask else MaskState.DrawMaskedContent⟩ := by
      simp only [pop_mask, wrap_sub1_wrap_add1 s.num_masks hs]
    rw [hpop]
    have hrest := ihRest
      ⟨s.num_masks, if s.num_masks = 0 then MaskState.NoMask else MaskState.DrawMaskedContent⟩ hs
    rw [hrest]
    have hh : hasMaskCmd (Command.PushMask :: stencil ++ Command.ActivateMask :: inner
        ++ Command.DeactivateMask :: clear ++ Command.PopMask :: rest) = true := by
      simp [hasMaskCmd, isMaskCmd]
    rw [hh]
    cases hasMaskCmd rest <;> simp

/-- Claim C5: for every well-formed command stream (Push/Activate/Deactivate/
Pop always nested in matching pairs), starting from state NoMask with
counter 0, after executing all mask commands the counter is again 0 and the
mask state is NoMask. -/
theorem mask_counter_balance (l : List Command) (hwf : WFStream l) :
    maskRun l ⟨0, MaskState.NoMask⟩ = ⟨0, MaskState.NoMask⟩ := by
  rw [maskRun_wf l hwf ⟨0, MaskState.NoMask⟩ (by decide)]
  cases hasMaskCmd l <;> simp

/-- Witness for C5: a concrete well-formed stream with one mask group whose
stencil shape is a DrawRect, run from the initial state. -/
theorem mask_counter_balance_witness :
    WFStream [Command.PushMask,
      Command.DrawRect ⟨255, 255, 255, 255⟩ ⟨1, 0, 0, 1, 0, 0⟩,
      Command.ActivateMask, Command.DeactivateMask, Command.PopMask]
    ∧ maskRun [Command.PushMask,
        Command.DrawRect ⟨255, 255, 255, 255⟩ ⟨1, 0, 0, 1, 0, 0⟩,
        Command.ActivateMask, Command.DeactivateMask, Command.PopMask]
        ⟨0, MaskState.NoMask⟩ = ⟨0, MaskState.NoMask⟩ := by
  have hwf : WFStream (Command.PushMask ::
      [Command.DrawRect ⟨255, 255, 255, 255⟩ ⟨1, 0, 0, 1, 0, 0⟩]
      ++ Command.ActivateMask :: ([] : List Command)
      ++ Command.DeactivateMask :: ([] : List Command) ++ Command.PopMask :: []) :=
    WFStream.group (by intro c hc; simp at hc; subst hc; rfl) (by intro c hc; simp at hc)
      WFStream.nil WFStream.nil
  simp only [List.append_nil, List.nil_append, List.cons_append, List.singleton_append] at hwf
  exact ⟨hwf, mask_counter_balance _ hwf⟩

/-- Iterated push_mask: the resulting state after N successive PushMask
handlers and, in order, the stencil references each call set. -/
def iterate_push : Nat → MaskSt → MaskSt × List Nat
  | 0, s => (s, [])
  | n + 1, s =>
    let p := push_mask s
    let q := iterate_push n p.1
    (q.1, p.2 :: q.2)

theorem iterate_push_refs (n : Nat) :
    ∀ k : Nat, ∀ st : MaskState, k + n ≤ U32_MOD →
      (iterate_push n ⟨k, st⟩).2 = (List.range n).map (k + ·) := by
  induction n with
  | zero => intro k st _; simp [iterate_push]
  | succ n ih =>
    intro k st hk
    have hpushref : (push_mask ⟨k, st⟩).2 = k := by
      have hklt : k < U32_MOD := by omega
      simp [push_mask, wrap_sub1_wrap_add1 k hklt]
    have hrange : List.range (n + 1) = 0 :: (List.range n).map (· + 1) :=
      List.range_succ_eq_map n
    by_cases hwrapfree : k + 1 < U32_MOD
    · have hstep : (push_mask ⟨k, st⟩).1 = ⟨k + 1, MaskState.DrawMaskStencil⟩ := by
        simp [push_mask, wrap_add1_eq k hwrapfree]
      have htail := ih (k + 1) MaskState.DrawMaskStencil (by omega)
      simp only [iterate_push, hstep, htail, hpushref, hrange, List.map_cons, List.map_map]
      refine List.cons_eq_cons.mpr ⟨by omega, ?_⟩
      apply List.map_congr_left
      intro a _
      simp only [Function.comp]
      omega
    · have hn0 : n = 0 := by
        simp only [U32_MOD] at *
        omega
      subst hn0
      simp [iterate_push, hpushref, List.range_succ]

/-- Claim C6: the k-th nested PushMask sets stencil reference k - 1, so N
successive nested PushMask commands starting from the initial state produce
stencil references 0..N-1, and each PopMask sets the stencil reference to
the decremented counter — the reference value in effect at the enclosing
nesting level. -/
theorem stencil_reference_monotonicity (n : Nat) (hn : n ≤ U32_MOD)
    (s : MaskSt) (h0 : 0 < s.num_masks) (hs : s.num_masks < U32_MOD) :
    (iterate_push n ⟨0, MaskState.NoMask⟩).2 = List.range n
    ∧ (pop_mask s).2 = s.num_masks - 1
    ∧ (pop_mask s).1.num_masks = s.num_masks - 1 := by
  refine ⟨?_, ?_, ?_⟩
  · have h := iterate_push_refs n 0 MaskState.NoMask (by omega)
    simpa using h
  · simp [pop_mask, wrap_sub1_eq s.num_masks h0 hs]
  · simp [pop_mask, wrap_sub1_eq s.num_masks h0 hs]

/-- Witness for C6: three nested pushes from the initial state emit stencil
references 0, 1, 2, and a pop at counter 3 emits reference 2. -/
theorem stencil_reference_monotonicity_witness :
    (3 : Nat) ≤ U32_MOD ∧ 0 < (3 : Nat) ∧ (3 : Nat) < U32_MOD
    ∧ ((iterate_push 3 ⟨0, MaskState.NoMask⟩).2 = List.range 3
      ∧ (pop_mask ⟨3, MaskState.ClearMaskStencil⟩).2 = 2
      ∧ (pop_mask ⟨3, MaskState.ClearMaskStencil⟩).1.num_masks = 2) := by
  have h := stencil_reference_monotonicity 3 (by decide)
    ⟨3, MaskState.ClearMaskStencil⟩ (by decide) (by decide)
  exact ⟨by decide, by decide, by decide, h⟩

/-- MAX_BLEND_MODES from render/wgpu/src/descriptors.rs. -/
def MAX_BLEND_MODES : Nat := 13

/-- Index computed by Descriptors::blend_buffer for each BlendMode (the match
in render/wgpu/src/descriptors.rs). -/
def blend_buffer_index : BlendMode → Nat
  | BlendMode.Normal => 0
  | BlendMode.Layer => 0
  | BlendMode.Multiply => 1
  | BlendMode.Screen => 2
  | BlendMode.Lighten => 3
  | BlendMode.Darken => 4
  | BlendMode.Difference => 5
  | BlendMode.Add => 6
  | BlendMode.Subtract => 7
  | BlendMode.Invert => 8
  | BlendMode.Alpha => 9
  | BlendMode.Erase => 10
  | BlendMode.Overlay => 11
  | BlendMode.HardLight => 12

theorem blend_buffer_index_lt (m : BlendMode) : blend_buffer_index m < MAX_BLEND_MODES := by
  cases m <;> decide

/-- Descriptors::blend_buffer: index the fixed blend_buffers array (length
MAX_BLEND_MODES, built once at startup) by the mode's index. The array is
abstracted as a function from in-range indices to buffers. -/
def blend_buffer {α : Type} (blend_buffers : Fin MAX_BLEND_MODES → α)
    (blend_mode : BlendMode) : α :=
  blend_buffers ⟨blend_buffer_index blend_mode, blend_buffer_index_lt blend_mode⟩

/-- Claim C10: for every BlendMode, Descriptors::blend_buffer computes an
index strictly below MAX_BLEND_MODES (13), so indexing the blend_buffers
array never goes out of bounds; Normal and Layer both map to index 0 and
therefore return the same buffer. -/
theorem blend_buffer_index_in_bounds {α : Type} (blend_buffers : Fin MAX_BLEND_MODES → α) :
    (∀ m : BlendMode, blend_buffer_index m < MAX_BLEND_MODES)
    ∧ blend_buffer_index BlendMode.Normal = 0
    ∧ blend_buffer_index BlendMode.Layer = 0
    ∧ blend_buffer blend_buffers BlendMode.Normal = blend_buffer blend_buffers BlendMode.Layer := by
  exact ⟨blend_buffer_index_lt, rfl, rfl, rfl⟩

/-- Enum index of a MaskState (enum_map derive order in render/wgpu/src). -/
def maskStateIndex : MaskState → Nat
  | MaskState.NoMask => 0
  | MaskState.DrawMaskStencil => 1
  | MaskState.DrawMaskedContent => 2
  | MaskState.ClearMaskStencil => 3

/-- ShapePipeline from render/wgpu/src/pipelines.rs: an EnumMap from
MaskState to a render pipeline; pipelines are identified by the id the
device assigned when they were created. -/
structure ShapePipeline where
  pipelines : MaskState → Nat

/-- pipeline_for from render/wgpu/src/pipelines.rs: look up the pipeline for
a mask state in the EnumMap. -/
def ShapePipeline.pipeline_for (sp : ShapePipeline) (mask_state : MaskState) : Nat :=
  sp.pipelines mask_state

/-- Pipelines from render/wgpu/src/pipelines.rs: the four pipeline families
built by Pipelines::new for one (sample count, format) key. -/
structure Pipelines where
  color : ShapePipeline
  bitmap : ShapePipeline
  gradient : ShapePipeline
  blend : ShapePipeline

/-- Pipelines.new modeled: the device creates 16 fresh render pipelines
(4 families x 4 mask states); `base` is the allocation base so different
calls yield disjoint pipeline ids. -/
def Pipelines.new (base : Nat) : Pipelines :=
  { color := ⟨fun m => base * 16 + maskStateIndex m⟩
    bitmap := ⟨fun m => base * 16 + 4 + maskStateIndex m⟩
    gradient := ⟨fun m => base * 16 + 8 + maskStateIndex m⟩
    blend := ⟨fun m => base * 16 + 12 + maskStateIndex m⟩ }

/-- State of the Descriptors::pipelines cache: the FnvHashMap from
(msaa_sample_count, format) to Arc<Pipelines>, modeled as an association
list from keys to Arc identities, plus the id the next Pipelines::new
allocation would get. The format enum is abstracted to a Nat code. -/
structure PipelinesCache where
  entries : List ((Nat × Nat) × Nat)
  next_id : Nat
deriving DecidableEq

/-- Initial cache (Default::default() in Descriptors::new): no entries. -/
def PipelinesCache.init : PipelinesCache := ⟨[], 0⟩

/-- HashMap lookup on the association-list model. -/
def findEntry : List ((Nat × Nat) × Nat) → (Nat × Nat) → Option Nat
  | [], _ => none
  | (k, v) :: rest, key => if k = key then some v else findEntry rest key

/-- Descriptors::pipelines from render/wgpu/src/descriptors.rs: under the
mutex, look the key up and insert a freshly built Arc<Pipelines> when it is
absent (entry(...).or_insert_with(...)), returning a clone of the Arc. The
returned Nat is the Arc identity (reference equality of the shared object). -/
def Descriptors.pipelines (c : PipelinesCache) (msaa_sample_count : Nat) (format : Nat) :
    Nat × PipelinesCache :=
  match findEntry c.entries (msaa_sample_count, format) with
  | some id => (id, c)
  | none =>
      (c.next_id, ⟨c.entries ++ [((msaa_sample_count, format), c.next_id)], c.next_id + 1⟩)

/-- Well-formedness of the cache: every stored Arc id is below the
allocation counter, and no two entries share an Arc id. -/
def CacheWF (c : PipelinesCache) : Prop :=
  (∀ e ∈ c.entries, e.2 < c.next_id) ∧ c.entries.Pairwise (fun a b => a.2 ≠ b.2)

theorem findEntry_mem {l : List ((Nat × Nat) × Nat)} {k : Nat × Nat} {v : Nat}
    (h : findEntry l k = some v) : (k, v) ∈ l := by
  induction l with
  | nil => simp [findEntry] at h
  | cons e rest ih =>
    obtain ⟨ek, ev⟩ := e
    by_cases hk : ek = k
    · subst hk
      simp [findEntry] at h
      subst h
      simp
    · simp [findEntry, hk] at h
      exact List.mem_cons_of_mem _ (ih h)

theorem findEntry_append_last {l : List ((Nat × Nat) × Nat)} {k : Nat × Nat} {v : Nat}
    (h : findEntry l k = none) : findEntry (l ++ [(k, v)]) k = some v := by
  induction l with
  | nil => simp [findEntry]
  | cons e rest ih =>
    obtain ⟨ek, ev⟩ := e
    by_cases hk : ek = k
    · subst hk; simp [findEntry] at h
    · simp only [List.cons_append, findEntry, if_neg hk] at *
      exact ih h

theorem findEntry_append_other {l : List ((Nat × Nat) × Nat)} {k k2 : Nat × Nat} {v : Nat}
    (h : k2 ≠ k) : findEntry (l ++ [(k2, v)]) k = findEntry l k := by
  induction l with
  | nil => simp [findEntry, h]
  | cons e rest ih =>
    obtain ⟨ek, ev⟩ := e
    by_cases hk : ek = k
    · subst hk; simp [findEntry]
    · simp only [List.cons_append, findEntry, if_neg hk]
      exact ih

/-- Claim C8: the pipeline cache is lazily filled, memoizing, collision-free
and eviction-free. Starting from a well-formed cache: the initial cache has
no entry for any key (creation happens on first use); a second call with the
same (sample count, format) key returns the identical Arc<Pipelines> object
and leaves the cache unchanged, so pipeline_for on the shared object at the
same mask state yields the identical pipeline; after a miss the entry is
stored under the key; a call with a distinct key never returns the first
call's object; and no existing entry is removed by a call. -/
theorem pipelines_cache_spec (c : PipelinesCache) (hc : CacheWF c)
    (s f s2 f2 : Nat) :
    (∀ key : Nat × Nat, findEntry PipelinesCache.init.entries key = none)
    ∧ (Descriptors.pipelines (Descriptors.pipelines c s f).2 s f).1
        = (Descriptors.pipelines c s f).1
    ∧ (Descriptors.pipelines (Descriptors.pipelines c s f).2 s f).2
        = (Descriptors.pipelines c s f).2
    ∧ (∀ m : MaskState,
        (Pipelines.new ((Descriptors.pipelines (Descriptors.pipelines c s f).2 s f).1)).bitmap.pipeline_for m
        = (Pipelines.new ((Descriptors.pipelines c s f).1)).bitmap.pipeline_for m)
    ∧ (findEntry ((Descriptors.pipelines c s f).2).entries (s, f)
        = some (Descriptors.pipelines c s f).1)
    ∧ ((s, f) ≠ (s2, f2) →
        (Descriptors.pipelines (Descriptors.pipelines c s f).2 s2 f2).1
          ≠ (Descriptors.pipelines c s f).1)
    ∧ (∀ e ∈ c.entries, e ∈ ((Descriptors.pipelines c s f).2).entries) := by
  obtain ⟨hbound, hdistinct⟩ := hc
  have hcached : findEntry ((Descriptors.pipelines c s f).2).entries (s, f)
      = some (Descriptors.pipelines c s f).1 := by
    unfold Descriptors.pipelines
    cases hfind : findEntry c.entries (s, f) with
    | some id => simp [hfind]
    | none => simpa [hfind] using findEntry_append_last hfind
  have hsame : Descriptors.pipelines (Descriptors.pipelines c s f).2 s f
      = ((Descriptors.pipelines c s f).1, (Descriptors.pipelines c s f).2) := by
    rw [show Descriptors.pipelines (Descriptors.pipelines c s f).2 s f
        = match findEntry ((Descriptors.pipelines c s f).2).entries (s, f) with
          | some id => (id, (Descriptors.pipelines c s f).2)
          | none => (((Descriptors.pipelines c s f).2).next_id,
              ⟨((Descriptors.pipelines c s f).2).entries
                ++ [((s, f), ((Descriptors.pipelines c s f).2).next_id)],
                ((Descriptors.pipelines c s f).2).next_id + 1⟩)
        from rfl]
    rw [hcached]
  refine ⟨fun key => rfl, ?_, ?_, ?_, hcached, ?_, ?_⟩
  · rw [hsame]
  · rw [hsame]
  · intro m
    rw [hsame]
  · intro hne
    cases hfind : findEntry c.entries (s, f) with
    | some id1 =>
      have hres1 : Descriptors.pipelines c s f = (id1, c) := by
        unfold Descriptors.pipelines
        rw [hfind]
      rw [hres1]
      cases hfind2 : findEntry c.entries (s2, f2) with
      | some id2 =>
        have hres2 : Descriptors.pipelines c s2 f2 = (id2, c) := by
          unfold Descriptors.pipelines
          rw [hfind2]
        rw [hres2]
        have hmem1 : ((s, f), id1) ∈ c.entries := findEntry_mem hfind
        have hmem2 : ((s2, f2), id2) ∈ c.entries := findEntry_mem hfind2
        have hsymm : Symmetric (fun a b : (Nat × Nat) × Nat => a.2 ≠ b.2) :=
          fun a b h => h.symm
        intro heq
        simp only at heq
        subst heq
        have hpairs : ((s2, f2), id2) ≠ ((s, f), id2) := by
          intro hp
          exact hne (congrArg Prod.fst hp).symm
        exact List.Pairwise.forall hsymm hdistinct hmem2 hmem1 hpairs rfl
      | none =>
        have hres2 : Descriptors.pipelines c s2 f2
            = (c.next_id, ⟨c.entries ++ [((s2, f2), c.next_id)], c.next_id + 1⟩) := by
          unfold Descriptors.pipelines
          rw [hfind2]
        rw [hres2]
        have : id1 < c.next_id := hbound _ (findEntry_mem hfind)
        omega
    | none =>
      have hres1 : Descriptors.pipelines c s f
          = (c.next_id, ⟨c.entries ++ [((s, f), c.next_id)], c.next_id + 1⟩) := by
        unfold Descriptors.pipelines
        rw [hfind]
      rw [hres1]
      have hkeep : findEntry (c.entries ++ [((s, f), c.next_id)]) (s2, f2)
          = findEntry c.entries (s2, f2) := findEntry_append_other hne
      cases hfind2 : findEntry c.entries (s2, f2) with
      | some id2 =>
        have hres2 : Descriptors.pipelines
            (⟨c.entries ++ [((s, f), c.next_id)], c.next_id + 1⟩ : PipelinesCache) s2 f2
            = (id2, ⟨c.entries ++ [((s, f), c.next_id)], c.next_id + 1⟩) := by
          unfold Descriptors.pipelines
          simp only [hkeep, hfind2]
        rw [hres2]
        have : id2 < c.next_id := hbound _ (findEntry_mem hfind2)
        omega
      | none =>
        have hres2 : Descriptors.pipelines
            (⟨c.entries ++ [((s, f), c.next_id)], c.next_id + 1⟩ : PipelinesCache) s2 f2
            = (c.next_id + 1, ⟨(c.entries ++ [((s, f), c.next_id)])
                ++ [((s2, f2), c.next_id + 1)], c.next_id + 2⟩) := by
          unfold Descriptors.pipelines
          simp only [hkeep, hfind2]
        rw [hres2]
        omega
  · intro e he
    unfold Descriptors.pipelines
    cases hfind : findEntry c.entries (s, f) with
    | some id => simpa [hfind]
    | none => simp [hfind, he]

/-- Witness for C8 on the empty initial cache with keys (4, 0) and (1, 0). -/
theorem pipelines_cache_spec_witness :
    CacheWF PipelinesCache.init
    ∧ ((∀ key : Nat × Nat, findEntry PipelinesCache.init.entries key = none)
      ∧ (Descriptors.pipelines (Descriptors.pipelines PipelinesCache.init 4 0).2 4 0).1
          = (Descriptors.pipelines PipelinesCache.init 4 0).1
      ∧ (Descriptors.pipelines (Descriptors.pipelines PipelinesCache.init 4 0).2 4 0).2
          = (Descriptors.pipelines PipelinesCache.init 4 0).2
      ∧ (∀ m : MaskState,
          (Pipelines.new ((Descriptors.pipelines (Descriptors.pipelines PipelinesCache.init 4 0).2 4 0).1)).bitmap.pipeline_for m
          = (Pipelines.new ((Descriptors.pipelines PipelinesCache.init 4 0).1)).bitmap.pipeline_for m)
      ∧ (findEntry ((Descriptors.pipelines PipelinesCache.init 4 0).2).entries (4, 0)
          = some (Descriptors.pipelines PipelinesCache.init 4 0).1)
      ∧ (((4 : Nat), (0 : Nat)) ≠ ((1 : Nat), (0 : Nat)) →
          (Descriptors.pipelines (Descriptors.pipelines PipelinesCache.init 4 0).2 1 0).1
            ≠ (Descriptors.pipelines PipelinesCache.init 4 0).1)
      ∧ (∀ e ∈ PipelinesCache.init.entries,
          e ∈ ((Descriptors.pipelines PipelinesCache.init 4 0).2).entries)) := by
  have hwf : CacheWF PipelinesCache.init := by
    constructor
    · intro e he
      simp [PipelinesCache.init] at he
    · exact List.Pairwise.nil
  exact ⟨hwf, pipelines_cache_spec PipelinesCache.init hwf 4 0 1 0⟩

/-- Pipeline family selected for a draw (the field of Pipelines it comes
from). -/
inductive PipelineFamily
  | color
  | bitmap
  | gradient
  | blend
deriving DecidableEq

/-- Resource bound into a bind group for the blend composite draw
(commands.rs lines 261-295): the quad texture-transform uniform, a texture
view identified by its target bundle id, a sampler obtained from
get_sampler(smoothing, anisotropic), the per-blend-mode uniform buffer from
Descriptors::blend_buffer, or a view of a target's blend-source buffer. The
last two constructors name resources that exist in Descriptors so that their
absence from a bind group is expressible. -/
inductive BindingRes
  | quadTexTransforms
  | textureView (target : Nat)
  | sampler (smoothing : Bool) (anisotropic : Bool)
  | blendModeBuffer (index : Nat)
  | blendSourceView (target : Nat)
deriving DecidableEq

/-- Stencil reference set before a draw, per the mask-state match in
CommandRenderer::execute (commands.rs lines 304-315 and 184-201): none in
NoMask, num_masks - 1 in DrawMaskStencil, num_masks otherwise. -/
def set_stencil_ref_for (s : MaskSt) : Option Nat :=
  match s.mask_state with
  | MaskState.NoMask => none
  | MaskState.DrawMaskStencil => some (wrap_sub1 s.num_masks)
  | MaskState.DrawMaskedContent => some s.num_masks
  | MaskState.ClearMaskStencil => some s.num_masks

/-- Observable shape of the composite draw a Blend chunk issues
(commands.rs lines 261-329). -/
structure CompositeDraw where
  parent : Nat
  child : Nat
  blend_mode : BlendMode
  colorClear : Bool
  depthClear : Bool
  stencilClear : Bool
  family : PipelineFamily
  pipelineMaskState : MaskState
  stencilRef : Option Nat
  bindings : List BindingRes
  numIndices : Nat
deriving DecidableEq

/-- Composite draw recorded for a Blend chunk, built field by field from the
source: color attachment on the parent target with clear = first
(target.color_attachments(first)); depth attachment with clear = false and
stencil load always Load (child.depth_attachment(false)); pipeline
pipelines.bitmap.pipeline_for(mask_state); stencil reference from the
mask-state match; bind group entries quad.texture_transforms,
child.color_view() and get_sampler(false, false); draw_indexed(0..6). -/
def mkCompositeDraw (target child : Nat) (blend_mode : BlendMode) (first : Bool)
    (ms : MaskSt) : CompositeDraw :=
  { parent := target
    child := child
    blend_mode := blend_mode
    colorClear := first
    depthClear := false
    stencilClear := false
    family := PipelineFamily.bitmap
    pipelineMaskState := ms.mask_state
    stencilRef := set_stencil_ref_for ms
    bindings := [BindingRes.quadTexTransforms, BindingRes.textureView child,
      BindingRes.sampler false false]
    numIndices := 6 }

/-- Observable GPU-side events of CommandRenderer::execute, in recording
order: the copy of the parent target into its blend-source buffer, the
opening of a draw-chunk render pass (with its clear flags), the recursive
execute call for a Blend chunk (recording the fresh child target, the
nearest-layer argument actually passed, the caller's nearest layer and the
mode), and the composite draw. -/
inductive Event
  | copyBlendBuffer (target : Nat)
  | beginDrawPass (target : Nat) (clearColor : Bool) (clearDepth : Bool)
  | recurse (child : Nat) (passedNearest : Nat) (callerNearest : Nat)
      (blend_mode : BlendMode)
  | composite (draw : CompositeDraw)
deriving DecidableEq

/-- Effect of one command of a Draw chunk on the mask machine, as dispatched
in the per-command match of execute: mask commands run their handlers, plain
draw commands leave the state unchanged, and a Blend command inside a Draw
chunk is the source's unreachable branch (modeled as none). -/
def applyDrawCommand : Command → MaskSt → Option MaskSt
  | Command.PushMask, s => some (push_mask s).1
  | Command.ActivateMask, s => some (activate_mask s).1
  | Command.DeactivateMask, s => some (deactivate_mask s).1
  | Command.PopMask, s => some (pop_mask s).1
  | Command.Blend _ _, _ => none
  | _, s => some s

/-- Mask-machine state after a Draw chunk's command loop. -/
def runDrawCommands : List Command → MaskSt → Option MaskSt
  | [], s => some s
  | c :: rest, s =>
    match applyDrawCommand c s with
    | none => none
    | some s2 => runDrawCommands rest s2

/-- Chunk-processing loop of CommandRenderer::execute, producing the event
trace and the next fresh target id. `fuel` bounds the blend recursion depth
(the source recursion is bounded only by the authored nesting); every
recursive call burns one unit, and none is returned when it runs out.
`first` is the loop's first-chunk flag, `ms` the threaded mask state,
`target`/`nearest` the current and nearest-enclosing-layer target ids, and
`fresh` the next id the texture-buffer pool would hand out. A Blend chunk
copies the parent into its blend-source buffer, takes a fresh child bundle,
recurses with nearest = child if the mode is Layer else the caller's
nearest (clear_depth = false), then issues the composite draw. -/
def execChunksF : Nat → List Chunk → Bool → Bool → MaskSt → Nat → Nat → Nat →
    Option (List Event × Nat)
  | 0, _, _, _, _, _, _, _ => none
  | _ + 1, [], _, _, _, _, _, fresh => some ([], fresh)
  | fuel + 1, Chunk.Draw cmds :: rest, first, clearDepth, ms, target, nearest, fresh =>
    match runDrawCommands cmds ms with
    | none => none
    | some ms2 =>
      match execChunksF fuel rest false clearDepth ms2 target nearest fresh with
      | none => none
      | some (trace, fresh2) =>
          some (Event.beginDrawPass target first (first && clearDepth) :: trace, fresh2)
  | fuel + 1, Chunk.Blend nested blend_mode :: rest, first, clearDepth, ms, target, nearest, fresh =>
    let child := fresh
    let passed := if blend_mode = BlendMode.Layer then child else nearest
    match execChunksF fuel (chunk_blends nested) true false ⟨0, MaskState.NoMask⟩
        child passed (fresh + 1) with
    | none => none
    | some (innerTrace, fresh2) =>
      match execChunksF fuel rest false clearDepth ms target nearest fresh2 with
      | none => none
      | some (restTrace, fresh3) =>
          some (Event.copyBlendBuffer target
            :: Event.recurse child passed nearest blend_mode
            :: innerTrace
            ++ Event.composite (mkCompositeDraw target child blend_mode first ms)
            :: restTrace, fresh3)

/-- CommandRenderer::execute: chunk the commands and run the chunk loop with
first = true, num_masks = 0 and mask_state = NoMask (commands.rs lines
158-162). -/
def execute (fuel : Nat) (commands : List Command) (target nearest : Nat)
    (clear_depth : Bool) (fresh : Nat) : Option (List Event × Nat) :=
  execChunksF fuel (chunk_blends commands) true clear_depth ⟨0, MaskState.NoMask⟩
    target nearest fresh

/-- Per-event invariant of the compositor: a recursive execute call passes
the fresh child as nearest layer exactly for Layer mode, and a composite
draw uses the bitmap pipeline family, binds the quad transform, the child's
resolved color and the non-smoothed sampler, draws 6 indices and clears
neither depth nor stencil. -/
def eventOk : Event → Prop
  | Event.recurse child passed callerNearest blend_mode =>
      passed = if blend_mode = BlendMode.Layer then child else callerNearest
  | Event.composite d =>
      d.family = PipelineFamily.bitmap
      ∧ d.bindings = [BindingRes.quadTexTransforms, BindingRes.textureView d.child,
          BindingRes.sampler false false]
      ∧ d.depthClear = false ∧ d.stencilClear = false ∧ d.numIndices = 6
  | _ => True

theorem execChunksF_events (fuel : Nat) :
    ∀ (chunks : List Chunk) (first clearDepth : Bool) (ms : MaskSt)
      (target nearest fresh : Nat) (trace : List Event) (fresh2 : Nat),
      execChunksF fuel chunks first clearDepth ms target nearest fresh
        = some (trace, fresh2) →
      ∀ e ∈ trace, eventOk e := by
  induction fuel with
  | zero =>
    intro chunks first clearDepth ms target nearest fresh trace fresh2 h
    simp [execChunksF] at h
  | succ fuel ih =>
    intro chunks first clearDepth ms target nearest fresh trace fresh2 h
    cases chunks with
    | nil =>
      simp only [execChunksF, Option.some.injEq, Prod.mk.injEq] at h
      obtain ⟨h1, _⟩ := h
      subst h1
      intro e he
      simp at he
    | cons ch rest =>
      cases ch with
      | Draw cmds =>
        cases hr : runDrawCommands cmds ms with
        | none => simp [execChunksF, hr] at h
        | some ms2 =>
          cases he : execChunksF fuel rest false clearDepth ms2 target nearest fresh with
          | none => simp [execChunksF, hr, he] at h
          | some p =>
            obtain ⟨tr2, fr2⟩ := p
            simp only [execChunksF, hr, he, Option.some.injEq, Prod.mk.injEq] at h
            obtain ⟨h1, _⟩ := h
            subst h1
            intro e hme
            rcases List.mem_cons.mp hme with hme | hme
            · subst hme; trivial
            · exact ih rest false clearDepth ms2 target nearest fresh tr2 fr2 he e hme
      | Blend nested blend_mode =>
        cases hin : execChunksF fuel (chunk_blends nested) true false ⟨0, MaskState.NoMask⟩
            fresh (if blend_mode = BlendMode.Layer then fresh else nearest) (fresh + 1) with
        | none => simp [execChunksF, hin] at h
        | some p =>
          obtain ⟨innerTrace, fr2⟩ := p
          cases hre : execChunksF fuel rest false clearDepth ms target nearest fr2 with
          | none => simp [execChunksF, hin, hre] at h
          | some q =>
            obtain ⟨restTrace, fr3⟩ := q
            simp only [execChunksF, hin, hre, Option.some.injEq, Prod.mk.injEq] at h
            obtain ⟨h1, _⟩ := h
            subst h1
            intro e hme
            rcases List.mem_cons.mp hme with hme | hme
            · subst hme; trivial
            · rcases List.mem_cons.mp hme with hme | hme
              · subst hme
                show (if blend_mode = BlendMode.Layer then fresh else nearest)
                  = if blend_mode = BlendMode.Layer then fresh else nearest
                rfl
              · rcases List.mem_append.mp hme with hme | hme
                · exact ih (chunk_blends nested) true false ⟨0, MaskState.NoMask⟩ fresh
                    (if blend_mode = BlendMode.Layer then fresh else nearest) (fresh + 1)
                    innerTrace fr2 hin e hme
                · rcases List.mem_cons.mp hme with hme | hme
                  · subst hme
                    exact ⟨rfl, rfl, rfl, rfl, rfl⟩
                  · exact ih rest false clearDepth ms target nearest fr2 restTrace fr3 hre e hme

/-- Claim C7: for every Blend chunk, the nearest-enclosing-layer target
passed to the recursive execute call is the freshly acquired child target
exactly when the mode is Layer, and otherwise the caller's nearest_layer
argument passed through unchanged. -/
theorem blend_nearest_layer_choice (fuel : Nat) (commands : List Command)
    (target nearest fresh : Nat) (clear_depth : Bool) (trace : List Event) (fresh2 : Nat)
    (h : execute fuel commands target nearest clear_depth fresh = some (trace, fresh2))
    (child passed callerNearest : Nat) (blend_mode : BlendMode)
    (hm : Event.recurse child passed callerNearest blend_mode ∈ trace) :
    passed = if blend_mode = BlendMode.Layer then child else callerNearest := by
  have hev := execChunksF_events fuel (chunk_blends commands) true clear_depth
    ⟨0, MaskState.NoMask⟩ target nearest fresh trace fresh2 h _ hm
  simpa [eventOk] using hev

/-- Witness for C7: a single Layer blend over target 0 with nearest layer 5;
the recursion is passed the fresh child target 1. -/
theorem blend_nearest_layer_choice_witness :
    execute 2 [Command.Blend [] BlendMode.Layer] 0 5 true 1
      = some ([Event.copyBlendBuffer 0, Event.recurse 1 1 5 BlendMode.Layer,
          Event.composite (mkCompositeDraw 0 1 BlendMode.Layer true ⟨0, MaskState.NoMask⟩)], 2)
    ∧ Event.recurse 1 1 5 BlendMode.Layer
        ∈ [Event.copyBlendBuffer 0, Event.recurse 1 1 5 BlendMode.Layer,
          Event.composite (mkCompositeDraw 0 1 BlendMode.Layer true ⟨0, MaskState.NoMask⟩)]
    ∧ (1 : Nat) = if BlendMode.Layer = BlendMode.Layer then (1 : Nat) else 5 := by
  refine ⟨rfl, by simp, ?_⟩
  exact blend_nearest_layer_choice 2 [Command.Blend [] BlendMode.Layer] 0 5 1 true _ 2 rfl
    1 1 5 BlendMode.Layer (by simp)

/-- Property the spec claims of every composite draw (modelled from the
spec sentence of section 4.4 step d, for comparison with the source-derived
behavior): the composite is drawn with the blend-mode-specific pipeline
selected by the mode (the blend family with the mode's uniform buffer
bound), with both the parent's blend-source buffer and the child's resolved
color among its inputs, as a full-target quad with no depth/stencil clear. -/
def blend_composite_spec_claim (d : CompositeDraw) : Prop :=
  d.family = PipelineFamily.blend
  ∧ BindingRes.blendModeBuffer (blend_buffer_index d.blend_mode) ∈ d.bindings
  ∧ BindingRes.blendSourceView d.parent ∈ d.bindings
  ∧ BindingRes.textureView d.child ∈ d.bindings
  ∧ d.depthClear = false ∧ d.stencilClear = false ∧ d.numIndices = 6

/-- Lift of the claimed property to events: composite draws must satisfy the
claimed property, other events are unconstrained. -/
def compositeSatisfiesClaim : Event → Prop
  | Event.composite d => blend_composite_spec_claim d
  | _ => True

/-- Claim C1 as stated, over a run of execute. -/
def c1_claimed_property (fuel : Nat) (commands : List Command)
    (target nearest fresh : Nat) (clear_depth : Bool) : Prop :=
  ∀ trace fresh2,
    execute fuel commands target nearest clear_depth fresh = some (trace, fresh2) →
    ∀ e ∈ trace, compositeSatisfiesClaim e

/-- Counterexample to claim C1 as stated: executing a single Multiply blend
produces a composite draw made with the bitmap pipeline family and without
the parent's blend-source buffer or any blend-mode uniform among its
bindings. -/
theorem blend_composite_claim_counterexample :
    ¬ c1_claimed_property 2 [Command.Blend [] BlendMode.Multiply] 0 0 1 true := by
  intro h
  have hx := h [Event.copyBlendBuffer 0, Event.recurse 1 0 0 BlendMode.Multiply,
    Event.composite (mkCompositeDraw 0 1 BlendMode.Multiply true ⟨0, MaskState.NoMask⟩)] 2 rfl
  have hy := hx
    (Event.composite (mkCompositeDraw 0 1 BlendMode.Multiply true ⟨0, MaskState.NoMask⟩))
    (by simp)
  simp [compositeSatisfiesClaim, blend_composite_spec_claim, mkCompositeDraw] at hy

/-- Claim C1 (amended): for every Blend chunk, after the recursive render of
the nested list into the fresh child target, the composite of the child back
onto the parent target is drawn with the generic bitmap pipeline for the
current mask state — the blend mode selects no pipeline and no blend uniform
is bound — with the child target's resolved color (together with the shared
quad texture transform and the non-smoothed sampler) as its only inputs; the
parent's blend-source buffer is snapshotted before the recursion but not
bound; the draw is a full-target quad (6 indices) with no depth/stencil
clear. -/
theorem blend_composite_uses_bitmap_pipeline (fuel : Nat) (commands : List Command)
    (target nearest fresh : Nat) (clear_depth : Bool) (trace : List Event) (fresh2 : Nat)
    (h : execute fuel commands target nearest clear_depth fresh = some (trace, fresh2))
    (d : CompositeDraw) (hd : Event.composite d ∈ trace) :
    d.family = PipelineFamily.bitmap
    ∧ d.bindings = [BindingRes.quadTexTransforms, BindingRes.textureView d.child,
        BindingRes.sampler false false]
    ∧ d.depthClear = false ∧ d.stencilClear = false ∧ d.numIndices = 6 := by
  have hev := execChunksF_events fuel (chunk_blends commands) true clear_depth
    ⟨0, MaskState.NoMask⟩ target nearest fresh trace fresh2 h _ hd
  simpa [eventOk] using hev

/-- Witness for the amended C1 on a single Erase blend. -/
theorem blend_composite_uses_bitmap_pipeline_witness :
    execute 2 [Command.Blend [] BlendMode.Erase] 0 0 true 1
      = some ([Event.copyBlendBuffer 0, Event.recurse 1 0 0 BlendMode.Erase,
          Event.composite (mkCompositeDraw 0 1 BlendMode.Erase true ⟨0, MaskState.NoMask⟩)], 2)
    ∧ Event.composite (mkCompositeDraw 0 1 BlendMode.Erase true ⟨0, MaskState.NoMask⟩)
        ∈ [Event.copyBlendBuffer 0, Event.recurse 1 0 0 BlendMode.Erase,
          Event.composite (mkCompositeDraw 0 1 BlendMode.Erase true ⟨0, MaskState.NoMask⟩)]
    ∧ ((mkCompositeDraw 0 1 BlendMode.Erase true ⟨0, MaskState.NoMask⟩).family
        = PipelineFamily.bitmap
      ∧ (mkCompositeDraw 0 1 BlendMode.Erase true ⟨0, MaskState.NoMask⟩).bindings
        = [BindingRes.quadTexTransforms,
           BindingRes.textureView (mkCompositeDraw 0 1 BlendMode.Erase true
             ⟨0, MaskState.NoMask⟩).child,
           BindingRes.sampler false false]
      ∧ (mkCompositeDraw 0 1 BlendMode.Erase true ⟨0, MaskState.NoMask⟩).depthClear = false
      ∧ (mkCompositeDraw 0 1 BlendMode.Erase true ⟨0, MaskState.NoMask⟩).stencilClear = false
      ∧ (mkCompositeDraw 0 1 BlendMode.Erase true ⟨0, MaskState.NoMask⟩).numIndices = 6) := by
  refine ⟨rfl, by simp, ?_⟩
  exact blend_composite_uses_bitmap_pipeline 2 [Command.Blend [] BlendMode.Erase] 0 0 1 true
    _ 2 rfl _ (by simp)

end Ruffle
